import Mathlib

/-!
Verification of the `pokedexcli` repository's time-bounded cache
(`internal/pokecache/cache.go`) and the catch-chance logic of the
`catch` command (`main.go`), via a shallow embedding in Lean 4.

Modelling decisions:
* Time instants (`time.Time`) and durations (`time.Duration`) are both
  modelled as `Int` (Go durations are signed 64-bit nanosecond counts;
  `time.Since(t)` at instant `now` is `now - t`).
* Byte slices (`[]byte`) are modelled as `List Nat`; the Go zero value
  `nil` is the empty list.
* The Go map `map[string]cacheEntry` is modelled as a function
  `String → Option cacheEntry`.
* Methods on `*Cache` are state transformers: a mutating method returns
  the new `Cache`, a read-only method returns its result paired with the
  (unchanged) cache it threads through.
* The mutex only serializes access and adds no sequential behaviour, so
  it has no counterpart in the sequential embedding.
-/

namespace Pokecache

/-- `cacheEntry` from cache.go: the data and its creation time. -/
structure cacheEntry where
  createdAt : Int
  val : List Nat
  deriving DecidableEq, Repr

/-- `Cache` from cache.go: the entry map and the reaping interval.
The `sync.Mutex` field has no sequential content and is omitted. -/
@[ext] structure Cache where
  entries : String → Option cacheEntry
  interval : Int

/-- `NewCache` from cache.go: a cache with an empty entry map and the
given interval.  (The goroutine launch is the sweeper modelled by
`Cache.sweep` below.) -/
def NewCache (interval : Int) : Cache :=
  { entries := fun _ => none
    interval := interval }

/-- `(*Cache).Add` from cache.go: store `{createdAt: time.Now(), val}`
under `key`, overwriting any previous entry.  `now` is the value
`time.Now()` reads at the call. -/
def Cache.Add (c : Cache) (now : Int) (key : String) (val : List Nat) : Cache :=
  { c with entries := fun k =>
      if k = key then some { createdAt := now, val := val } else c.entries k }

/-- `(*Cache).Get` from cache.go: look `key` up in the entry map; on a
miss return `(nil, false)`, on a hit return `(entry.val, true)`.  The
cache is threaded through unchanged (the method body performs no
write). -/
def Cache.Get (c : Cache) (key : String) : (List Nat × Bool) × Cache :=
  match c.entries key with
  | none => (([], false), c)
  | some entry => ((entry.val, true), c)

/-- One pass of the `for key, entry := range c.entries` body of
`(*Cache).reapLoop` from cache.go, taken at instant `now`: every entry
with `time.Since(entry.createdAt) > c.interval`, i.e.
`now - createdAt > interval`, is deleted; every other entry is kept
as-is. -/
def Cache.sweep (c : Cache) (now : Int) : Cache :=
  { c with entries := fun k =>
      match c.entries k with
      | none => none
      | some entry =>
          if now - entry.createdAt > c.interval then none else some entry }

/-- The `delete(c.entries, key)` statement executed by `reapLoop` for a
single key. -/
def Cache.deleteEntry (c : Cache) (key : String) : Cache :=
  { c with entries := fun k => if k = key then none else c.entries k }

end Pokecache

namespace Pokedex

/-- `NamedAPIResource` from main.go. -/
structure NamedAPIResource where
  name : String
  url : String
  deriving DecidableEq, Repr

/-- `StatInfo` from main.go. -/
structure StatInfo where
  name : String
  deriving DecidableEq, Repr

/-- `Stat` from main.go. -/
structure Stat where
  stat : StatInfo
  baseStat : Int
  deriving DecidableEq, Repr

/-- `TypeInfo` from main.go. -/
structure TypeInfo where
  type : NamedAPIResource
  deriving DecidableEq, Repr

/-- `PokemonDetail` from main.go. -/
structure PokemonDetail where
  name : String
  baseExperience : Int
  height : Int
  weight : Int
  stats : List Stat
  types : List TypeInfo
  deriving DecidableEq, Repr

/-- The catch simulation of `commandCatch` in main.go, after the HTTP
fetch has produced `pokemonDetail` and `rng.Intn(100)` has produced
`randomValue`:
`catchChance := 100 - pokemonDetail.BaseExperience`, and the creature
is stored into `userPokedex` under its name exactly when
`randomValue < catchChance`; otherwise the pokedex is untouched. -/
def commandCatch (userPokedex : String → Option PokemonDetail)
    (pokemonDetail : PokemonDetail) (randomValue : Int) :
    String → Option PokemonDetail :=
  let catchChance := 100 - pokemonDetail.baseExperience
  if randomValue < catchChance then
    fun k => if k = pokemonDetail.name then some pokemonDetail else userPokedex k
  else
    userPokedex

end Pokedex

namespace Pokecache

/-- C1: for every key `k` and payload `v`, `Add(k, v)` immediately
followed by `Get(k)` returns `(v, true)`. -/
theorem c1_add_then_get (c : Cache) (now : Int) (k : String) (v : List Nat) :
    ((c.Add now k v).Get k).1 = (v, true) := by
  simp [Cache.Add, Cache.Get]

/-- C2: for every key `k` present in the entry map at the instant of
lookup, `Get(k)` returns the stored payload and `true` regardless of the
entry's age: `Get` performs no age check. -/
theorem c2_get_ignores_age (c : Cache) (k : String) (e : cacheEntry)
    (h : c.entries k = some e) : (c.Get k).1 = (e.val, true) := by
  simp [Cache.Get, h]

/-- C2 witness: an entry created at instant 0 in a cache whose retention
interval is 5 is still returned by `Get`, however much later the lookup
happens (no age parameter enters `Get` at all). -/
theorem c2_get_ignores_age_witness :
    ((((NewCache 5).Add 0 "k" [1, 2]).Get "k").1 = ([1, 2], true)) :=
  c2_get_ignores_age ((NewCache 5).Add 0 "k" [1, 2]) "k"
    { createdAt := 0, val := [1, 2] } (by decide)

/-- C3: a sweep pass at instant `now` deletes exactly the entries whose
age `now - createdAt` strictly exceeds the retention interval; an entry
with age at most the interval stays present with payload and
`createdAt` unchanged. -/
theorem c3_sweep_exact (c : Cache) (now : Int) (k : String) (e : cacheEntry)
    (h : c.entries k = some e) :
    ((c.sweep now).entries k = none ↔ now - e.createdAt > c.interval)
    ∧ (now - e.createdAt ≤ c.interval → (c.sweep now).entries k = some e) := by
  refine ⟨⟨fun hnone => ?_, fun hc => ?_⟩, fun hle => ?_⟩
  · by_cases hc : now - e.createdAt > c.interval
    · exact hc
    · simp [Cache.sweep, h, hc] at hnone
  · simp [Cache.sweep, h, hc]
  · have hc : ¬ now - e.createdAt > c.interval := by omega
    simp [Cache.sweep, h, hc]

/-- C3 witness: with retention 10, an entry created at instant 0 is
deleted by a sweep at instant 11 (age 11 > 10), while the bound
`11 - 0 ≤ 10` needed to keep it indeed fails. -/
theorem c3_sweep_exact_witness :
    ((((NewCache 10).Add 0 "old" [1]).sweep 11).entries "old" = none
        ↔ 11 - (0 : Int) > 10)
    ∧ (11 - (0 : Int) ≤ 10 →
        (((NewCache 10).Add 0 "old" [1]).sweep 11).entries "old"
          = some { createdAt := 0, val := [1] }) :=
  c3_sweep_exact ((NewCache 10).Add 0 "old" [1]) 11 "old"
    { createdAt := 0, val := [1] } (by decide)

/-- C4: `Add(k, v1)` then `Add(k, v2)` leaves the cache in exactly the
state of a single `Add(k, v2)` at the time of the second call (the entry
is replaced wholesale, so `v1` is unobservable), and a subsequent
`Get(k)` returns `(v2, true)`. -/
theorem c4_add_overwrites (c : Cache) (t₁ t₂ : Int) (k : String)
    (v₁ v₂ : List Nat) :
    ((c.Add t₁ k v₁).Add t₂ k v₂ = c.Add t₂ k v₂)
    ∧ ((((c.Add t₁ k v₁).Add t₂ k v₂).Get k).1 = (v₂, true)) := by
  refine ⟨?_, ?_⟩
  · apply Cache.ext
    · funext k'
      by_cases hk : k' = k <;> simp [Cache.Add, hk]
    · rfl
  · simp [Cache.Add, Cache.Get]

/-- C5: `Get(k)` on a cache with no entry for `k` returns the zero-value
payload (the empty byte sequence, modelling Go's nil slice) together
with `false`; absence is signalled by the boolean, not by an error. -/
theorem c5_get_miss (c : Cache) (k : String) (h : c.entries k = none) :
    (c.Get k).1 = ([], false) := by
  simp [Cache.Get, h]

/-- C5 witness: a lookup on the freshly constructed (empty) cache
misses and returns the empty payload with `false`. -/
theorem c5_get_miss_witness : (((NewCache 5).Get "absent").1 = ([], false)) :=
  c5_get_miss (NewCache 5) "absent" (by decide)

/-- C6: for distinct keys `a ≠ b`, both an `Add` that overwrites key `a`
and the `delete` of key `a` performed by a sweep leave the entry of key
`b` (presence, payload and timestamp) unchanged. -/
theorem c6_independent_keys (c : Cache) (t : Int) (a b : String)
    (v : List Nat) (h : a ≠ b) :
    ((c.Add t a v).entries b = c.entries b)
    ∧ ((c.deleteEntry a).entries b = c.entries b) := by
  refine ⟨?_, ?_⟩ <;> simp [Cache.Add, Cache.deleteEntry, Ne.symm h]

/-- C6 witness: overwriting and deleting key `"a"` both leave the entry
stored under key `"b"` untouched. -/
theorem c6_independent_keys_witness :
    ((((NewCache 5).Add 0 "b" [7]).Add 3 "a" [9]).entries "b"
        = ((NewCache 5).Add 0 "b" [7]).entries "b")
    ∧ ((((NewCache 5).Add 0 "b" [7]).deleteEntry "a").entries "b"
        = ((NewCache 5).Add 0 "b" [7]).entries "b") :=
  c6_independent_keys ((NewCache 5).Add 0 "b" [7]) 3 "a" "b" [9] (by decide)

/-- C7: the retention interval is fixed at construction and left
unchanged by every operation: `NewCache i` has interval `i`, and `Add`,
`Get` and each sweep pass preserve the interval field. -/
theorem c7_interval_invariant (i : Int) (c : Cache) (now t : Int)
    (k : String) (v : List Nat) :
    (NewCache i).interval = i
    ∧ (c.Add t k v).interval = c.interval
    ∧ ((c.Get k).2).interval = c.interval
    ∧ (c.sweep now).interval = c.interval := by
  refine ⟨rfl, rfl, ?_, rfl⟩
  cases h : c.entries k <;> simp [Cache.Get, h]

/-- C9: `Get` is read-only: it returns the cache unchanged, so a miss
creates no entry and a hit on an entry older than the retention interval
neither deletes nor refreshes it. -/
theorem c9_get_readonly (c : Cache) (k : String) : (c.Get k).2 = c := by
  cases h : c.entries k <;> simp [Cache.Get, h]

end Pokecache

namespace Pokedex

/-- C10: in the catch command a fetched creature is added to the pokedex
exactly when the random draw `r ∈ [0, 100)` satisfies
`r < 100 - baseExperience`; in particular, when `baseExperience ≥ 100`
the catch always fails and the pokedex map is unchanged. -/
theorem c10_commandCatch_spec (pd : String → Option PokemonDetail)
    (d : PokemonDetail) (r : Int) (h0 : 0 ≤ r) (h99 : r < 100) :
    (r < 100 - d.baseExperience → commandCatch pd d r d.name = some d)
    ∧ (¬ r < 100 - d.baseExperience → commandCatch pd d r = pd)
    ∧ (100 ≤ d.baseExperience → commandCatch pd d r = pd) := by
  refine ⟨?_, ?_, ?_⟩
  · intro h
    simp [commandCatch, h]
  · intro h
    simp [commandCatch, h]
  · intro h
    have hnot : ¬ r < 100 - d.baseExperience := by omega
    simp [commandCatch, hnot]

/-- C10 witness: at random draw 50 (within `[0, 100)`), a creature with
base experience 150 is never caught and the empty pokedex stays empty. -/
theorem c10_commandCatch_spec_witness :
    ((50 : Int) < 100 - (150 : Int) →
        commandCatch (fun _ => none)
          { name := "mewtwo", baseExperience := 150, height := 20,
            weight := 1220, stats := [], types := [] } 50 "mewtwo"
          = some { name := "mewtwo", baseExperience := 150, height := 20,
                   weight := 1220, stats := [], types := [] })
    ∧ (¬ (50 : Int) < 100 - (150 : Int) →
        commandCatch (fun _ => none)
          { name := "mewtwo", baseExperience := 150, height := 20,
            weight := 1220, stats := [], types := [] } 50
          = fun _ => none)
    ∧ ((100 : Int) ≤ 150 →
        commandCatch (fun _ => none)
          { name := "mewtwo", baseExperience := 150, height := 20,
            weight := 1220, stats := [], types := [] } 50
          = fun _ => none) :=
  c10_commandCatch_spec (fun _ => none)
    { name := "mewtwo", baseExperience := 150, height := 20,
      weight := 1220, stats := [], types := [] } 50 (by decide) (by decide)

end Pokedex
